import Mathlib

/-
Verification development for the Magento order/customer exporter
(two-phase checkpointed pipeline: download stage, durable unit store,
process stage, CSV formatting).

Each component of the JavaScript source is shallowly embedded as an
executable Lean definition; stateful code becomes explicit state passing,
exceptions become explicit outcome types, and the external world (remote
API responses, directory listings, file-operation failures) is passed in
as explicit environment data.  JavaScript strings are modelled as Lean
strings, with the string primitives the source uses (startsWith, endsWith,
the default lexicographic Array.sort comparison) re-implemented over
`String.data` so that every definition reduces in the kernel.
-/

namespace OrderExport

/-! ## JavaScript string primitives

The source compares and filters file names with `String.prototype.startsWith`,
`String.prototype.endsWith` and the default `Array.prototype.sort()`
comparison (lexicographic on code units).  These are embedded as structural
functions on `String.data`. -/

/-- Lexicographic comparison of character lists (the default JavaScript
`Array.sort()` string comparison). -/
def charListLe : List Char → List Char → Bool
  | [], _ => true
  | _ :: _, [] => false
  | c :: cs, d :: ds => if c = d then charListLe cs ds else decide (c < d)

/-- Lexicographic order on strings, as used by `Array.sort()` in
`getCachedOrderFiles`. -/
def strLe (a b : String) : Bool :=
  charListLe a.data b.data

/-- Embedding of `String.prototype.startsWith`. -/
def strStartsWith (s p : String) : Bool :=
  decide (s.data.take p.data.length = p.data)

/-- Embedding of `String.prototype.endsWith`. -/
def strEndsWith (s p : String) : Bool :=
  decide (s.data.drop (s.data.length - p.data.length) = p.data)

/-- The relation the store enumeration sorts by. -/
def strLeProp (a b : String) : Prop := strLe a b = true

instance : DecidableRel strLeProp := fun _ _ => by
  unfold strLeProp; infer_instance

/-! ## DurableUnitStore enumeration

`OrderProcessor.getCachedOrderFiles` reads the cache directory, keeps only
the unit files (`order-*.json`), and sorts them for a consistent
processing order.  The directory listing is passed in as the list of file
names the underlying `readdir` returned. -/

/-- The unit-file filter of `getCachedOrderFiles`:
`file.startsWith('order-') && file.endsWith('.json')`. -/
def isOrderFile (f : String) : Bool :=
  strStartsWith f "order-" && strEndsWith f ".json"

/-- Embedding of `OrderProcessor.getCachedOrderFiles`: filter the directory
listing to unit files and sort lexicographically (`.filter(...).sort()`). -/
def getCachedOrderFiles (dirFiles : List String) : List String :=
  List.insertionSort strLeProp (dirFiles.filter isOrderFile)

/-! ## Filesystem-level model of `OrderDownloader.saveOrder`

`saveOrder(order)` serializes the order (with a `_downloadMetadata`
envelope) and calls `writeFile` on the final unit path directly.  To
examine atomicity, the filesystem is modelled as a path-to-content map,
file operations as explicit data, and an interrupted `writeFile` as
leaving an arbitrary prefix of the content at the target path (the file
is opened with truncation, then bytes are appended until the crash). -/

namespace Fs

/-- A filesystem snapshot: association list from paths to file contents. -/
abbrev FS := List (String × String)

/-- Content at a path, if the file exists. -/
def fsRead (fs : FS) (p : String) : Option String :=
  fs.lookup p

/-- Completed write: overwrite the entry for `p`, or create one.  The
position of an entry in the association list is not observable (reads go
through `fsRead`, enumeration is sorted), so an overwrite is modelled as
remove-then-prepend. -/
def fsWrite (fs : FS) (p c : String) : FS :=
  (p, c) :: fs.filter (fun kv => decide (kv.1 ≠ p))

/-- A primitive filesystem operation. -/
inductive FsOp where
  | writeFileOp (path : String) (content : String)
  | renameOp (src : String) (dst : String)
  deriving DecidableEq

/-- Whether an operation is a rename. -/
def isRenameOp : FsOp → Bool
  | .writeFileOp _ _ => false
  | .renameOp _ _ => true

/-- Run one completed operation. -/
def runOp (fs : FS) : FsOp → FS
  | .writeFileOp p c => fsWrite fs p c
  | .renameOp src dst =>
    match fs.lookup src with
    | some c => fsWrite (fs.filter (fun kv => kv.1 ≠ src)) dst c
    | none => fs

/-- Run a sequence of completed operations. -/
def runOps (fs : FS) (ops : List FsOp) : FS :=
  ops.foldl runOp fs

/-- The states an interrupted single operation can leave behind.  A
`writeFile` interrupted mid-way truncates the file and has flushed some
prefix of the content; a `rename` is atomic at the directory level. -/
def opIntermediates (fs : FS) : FsOp → List FS
  | .writeFileOp p c =>
    (List.range (c.data.length + 1)).map
      (fun k => fsWrite fs p (String.mk (c.data.take k)))
  | .renameOp _ _ => []

/-- All states an interrupted run of `ops` can leave behind: the state
before each operation, plus the mid-operation states of the operation the
crash happened in. -/
def opsIntermediates (fs : FS) : List FsOp → List FS
  | [] => []
  | op :: rest => fs :: opIntermediates fs op ++ opsIntermediates (runOp fs op) rest

/-- Unit file name used by `saveOrder`, `orderFileExists` and the unit
filter: `order-<entity_id>.json`. -/
def orderFileName (entityId : Nat) : String :=
  "order-" ++ Nat.repr entityId ++ ".json"

/-- Embedding of the filesystem effect of `OrderDownloader.saveOrder`: one
direct `writeFile` to the final unit path, where `content` stands for
`JSON.stringify` of the order document with its metadata envelope.  There
is no temporary path and no rename step in the source. -/
def saveOrderOps (entityId : Nat) (content : String) : List FsOp :=
  [.writeFileOp (orderFileName entityId) content]

/-- Embedding of `OrderDownloader.orderFileExists` (an `access` check on
the unit path). -/
def orderFileExists (fs : FS) (entityId : Nat) : Bool :=
  (fsRead fs (orderFileName entityId)).isSome

/-- Store enumeration over a filesystem snapshot (the `readdir` result is
the list of paths). -/
def listUnits (fs : FS) : List String :=
  OrderExport.getCachedOrderFiles (fs.map Prod.fst)

/-- Formalisation of the atomicity property claimed of `put`: at every
state an interrupted `put(id, document)` can leave behind, the unit file
either still has its old content (or is still absent) or already has the
complete new content — never a half-written document. -/
def putNeverHalfWritten (fs : FS) (entityId : Nat) (content : String) : Prop :=
  ∀ s ∈ opsIntermediates fs (saveOrderOps entityId content),
    fsRead s (orderFileName entityId) = fsRead fs (orderFileName entityId) ∨
    fsRead s (orderFileName entityId) = some content

instance (fs : FS) (entityId : Nat) (content : String) :
    Decidable (putNeverHalfWritten fs entityId content) := by
  unfold putNeverHalfWritten; infer_instance

end Fs

/-! ## Rate-limited fetcher (`MagentoAPI`)

Each `MagentoAPI` method wraps exactly one underlying HTTP attempt (there
is no retry loop in `api.js`); the embedding therefore takes the outcome
of that single attempt as input and returns what the method hands back to
its caller.  A thrown transport error is `Except.error`, carrying the
optional HTTP response status. -/

namespace Api

/-- A thrown HTTP transport error (`error.response?.status` may be absent,
e.g. on a timeout). -/
structure ApiError where
  httpStatus : Option Nat
  deriving DecidableEq

/-- Response shape of the paginated and sub-resource list endpoints. -/
structure ItemsResponse (α : Type) where
  items : List α
  total_count : Option Nat
  deriving DecidableEq

/-- Embedding of `MagentoAPI.getOrders`: on success the response data is
returned; a thrown error is logged and re-thrown unchanged (`throw error`
in the catch block). -/
def getOrders {α : Type} (attempt : Except ApiError (ItemsResponse α)) :
    Except ApiError (ItemsResponse α) :=
  match attempt with
  | .ok resp => .ok resp
  | .error e => .error e

/-- Embedding of `MagentoAPI.getOrderTransactions`: on success the response
data is returned; a thrown error is logged and replaced by the fallback
`{ items: [] }` — the method itself never throws. -/
def getOrderTransactions {α : Type} (attempt : Except ApiError (ItemsResponse α)) :
    Except ApiError (ItemsResponse α) :=
  match attempt with
  | .ok resp => .ok resp
  | .error _ => .ok { items := [], total_count := none }

/-- Embedding of `MagentoAPI.getOrderShipments`: same structure as
`getOrderTransactions` — errors are swallowed and `{ items: [] }` is
returned. -/
def getOrderShipments {α : Type} (attempt : Except ApiError (ItemsResponse α)) :
    Except ApiError (ItemsResponse α) :=
  match attempt with
  | .ok resp => .ok resp
  | .error _ => .ok { items := [], total_count := none }

end Api

/-! ## Download stage (`OrderDownloader.downloadOrders`)

The download loop is embedded with the remote environment passed in
explicitly: the outcome of each successive `getOrders` call is the next
element of `env` (the loop makes exactly one page fetch per iteration, so
the recursion is structural on `env`; an exhausted `env` models a run
interrupted mid-loop).  Dependent sub-resource results come from `ApiEnv`;
as established for `MagentoAPI`, `getOrderTransactions` and
`getOrderShipments` never throw, and `saveOrder` faults are outside this
model, so the per-order catch block is unreachable here. -/

namespace Dl

/-- The slice of an order payload the download stage inspects:
identifiers, status, and whether the page payload already carries
`extension_attributes.shipments`. -/
structure Order where
  entity_id : Nat
  increment_id : String
  status : String
  hasShipmentsAttr : Bool
  deriving DecidableEq

/-- The self-contained document `saveOrder` persists: the order plus the
merged-in transaction items and (when fetched and non-empty) shipment
items. -/
structure SavedDoc where
  order : Order
  txItems : List Nat
  shipItems : Option (List Nat)
  deriving DecidableEq

/-- The durable unit store, keyed by `entity_id`. -/
abbrev Store := List (Nat × SavedDoc)

/-- Overwrite-or-create, the effect of `writeFile` on the unit path.  As
with `fsWrite`, entry position in the association list is not
observable, so an overwrite is modelled as remove-then-prepend. -/
def storePut (store : Store) (entityId : Nat) (doc : SavedDoc) : Store :=
  (entityId, doc) :: store.filter (fun kv => decide (kv.1 ≠ entityId))

/-- Embedding of `orderFileExists` at the store level. -/
def storeHas (store : Store) (entityId : Nat) : Bool :=
  (store.lookup entityId).isSome

/-- Results the remote system would serve for the dependent sub-resource
fetches, per order id (transaction ids, shipment items). -/
structure ApiEnv where
  transactionsFor : Nat → List Nat
  shipmentsFor : Nat → List Nat

/-- One network request issued by the download stage. -/
inductive NetCall where
  | getOrdersCall (page : Nat)
  | getTransactionsCall (orderId : Nat)
  | getShipmentsCall (orderId : Nat)
  deriving DecidableEq

/-- The order id a network call is about, if any. -/
def callOrderId : NetCall → Option Nat
  | .getOrdersCall _ => none
  | .getTransactionsCall i => some i
  | .getShipmentsCall i => some i

/-- Outcome of one `getOrders` page fetch. -/
inductive PageFetch where
  | ok (items : List Order) (totalCount : Option Nat)
  | err (httpStatus : Option Nat)
  deriving DecidableEq

/-- An entry of the download checkpoint `errors` array. -/
inductive DlError where
  | orderErr (orderId : Nat)
  | pageErr (page : Nat)
  deriving DecidableEq

/-- The download checkpoint (`download-status.json`). -/
structure DownloadStatus where
  totalOrders : Nat
  downloadedOrders : Nat
  lastProcessedPage : Nat
  completed : Bool
  errors : List DlError
  deriving DecidableEq

/-- The default status `loadStatus` returns when no file exists. -/
def initialDownloadStatus : DownloadStatus :=
  { totalOrders := 0, downloadedOrders := 0, lastProcessedPage := 0,
    completed := false, errors := [] }

/-- Result of handling one order of a page. -/
structure ItemOutcome where
  store : Store
  calls : List NetCall
  downloaded : Bool
  deriving DecidableEq

/-- Embedding of the body of the per-order loop: skip when the unit
already exists; otherwise fetch transactions, conditionally fetch
shipments (merged only when non-empty), and persist the document. -/
def processOrderItem (api : ApiEnv) (store : Store) (o : Order) : ItemOutcome :=
  if storeHas store o.entity_id then
    { store := store, calls := [], downloaded := false }
  else
    let tx := api.transactionsFor o.entity_id
    let fetchShipments := !o.hasShipmentsAttr &&
      (o.status == "complete" || o.status == "shipped")
    let shipCalls := if fetchShipments then [NetCall.getShipmentsCall o.entity_id] else []
    let shipItems :=
      if fetchShipments then
        let s := api.shipmentsFor o.entity_id
        if s.isEmpty then none else some s
      else none
    { store := storePut store o.entity_id ⟨o, tx, shipItems⟩,
      calls := NetCall.getTransactionsCall o.entity_id :: shipCalls,
      downloaded := true }

/-- Accumulated result of the per-order loop over one page. -/
structure PageItemsOutcome where
  store : Store
  downloadedCount : Nat
  calls : List NetCall
  deriving DecidableEq

/-- One step of the per-order loop accumulator. -/
def pageItemStep (api : ApiEnv) (acc : PageItemsOutcome) (o : Order) :
    PageItemsOutcome :=
  let r := processOrderItem api acc.store o
  { store := r.store,
    downloadedCount := acc.downloadedCount + (if r.downloaded then 1 else 0),
    calls := acc.calls ++ r.calls }

/-- The per-order loop over one page of items. -/
def processPageItems (api : ApiEnv) (store : Store) (items : List Order) :
    PageItemsOutcome :=
  items.foldl (pageItemStep api)
    { store := store, downloadedCount := 0, calls := [] }

/-- In-memory state of a download run: the unit store, the working status
object, and the last status snapshot persisted by `saveStatus`. -/
structure DlState where
  store : Store
  status : DownloadStatus
  persisted : Option DownloadStatus
  deriving DecidableEq

/-- State and calls of one successfully fetched non-empty page. -/
structure PageStep where
  state : DlState
  calls : List NetCall
  deriving DecidableEq

/-- Handling of one successfully fetched non-empty page: set
`totalOrders` on page 1, run the per-order loop, advance
`lastProcessedPage`, and persist the status (`saveStatus`). -/
def applyPage (api : ApiEnv) (page : Nat) (items : List Order)
    (totalCount : Option Nat) (st : DlState) : PageStep :=
  let st :=
    if page = 1 then
      { st with status := { st.status with totalOrders := totalCount.getD 0 } }
    else st
  let r := processPageItems api st.store items
  let status :=
    { st.status with
      downloadedOrders := st.status.downloadedOrders + r.downloadedCount,
      lastProcessedPage := page }
  { state := { store := r.store, status := status, persisted := some status },
    calls := NetCall.getOrdersCall page :: r.calls }

/-- Result of the `while (hasMoreOrders)` loop. -/
structure LoopOut where
  state : DlState
  pagesAttempted : List Nat
  calls : List NetCall
  authAborted : Bool
  ranOut : Bool
  deriving DecidableEq

/-- The 401/403 test of the page-level catch block. -/
def isAuthStatus (s : Option Nat) : Bool :=
  s == some 401 || s == some 403

/-- Embedding of the `while (hasMoreOrders)` loop of `downloadOrders`.
On a page error the error is recorded; 401/403 break out of the loop
(`authAborted`), any other error retries the same page.  On a page with
zero items the loop breaks.  Otherwise the page is applied and the loop
continues unless the latest `total_count` is at most
`(currentPage - 1) * pageSize` computed after `currentPage++`. -/
def downloadLoop (pageSize : Nat) (api : ApiEnv) :
    List PageFetch → Nat → DlState → LoopOut
  | [], _, st =>
    { state := st, pagesAttempted := [], calls := [], authAborted := false,
      ranOut := true }
  | fetch :: rest, page, st =>
    match fetch with
    | .err httpStatus =>
      let st :=
        { st with status := { st.status with errors := st.status.errors ++ [.pageErr page] } }
      if isAuthStatus httpStatus then
        { state := st, pagesAttempted := [page],
          calls := [NetCall.getOrdersCall page], authAborted := true, ranOut := false }
      else
        let out := downloadLoop pageSize api rest page st
        { out with
          pagesAttempted := page :: out.pagesAttempted,
          calls := NetCall.getOrdersCall page :: out.calls }
    | .ok items totalCount =>
      if items.isEmpty then
        { state := st, pagesAttempted := [page],
          calls := [NetCall.getOrdersCall page], authAborted := false, ranOut := false }
      else
        let step := applyPage api page items totalCount st
        let nextPage := page + 1
        if totalCount.getD 0 ≤ (nextPage - 1) * pageSize then
          { state := step.state, pagesAttempted := [page], calls := step.calls,
            authAborted := false, ranOut := false }
        else
          let out := downloadLoop pageSize api rest nextPage step.state
          { out with
            pagesAttempted := page :: out.pagesAttempted,
            calls := step.calls ++ out.calls }

/-- How a call of `downloadOrders` ended. -/
inductive DlRunKind where
  | alreadyCompleted
  | ran
  deriving DecidableEq

/-- Observable result of a `downloadOrders` call. -/
structure DlRun where
  kind : DlRunKind
  state : DlState
  pagesAttempted : List Nat
  calls : List NetCall
  authAborted : Bool
  interrupted : Bool
  deriving DecidableEq

/-- Embedding of `OrderDownloader.downloadOrders`.  `statusFile` is the
content of `download-status.json` if present (`loadStatus` falls back to
the default), `store0` the units already on disk, `env` the successive
page-fetch outcomes.  The API connection test is taken as passing (its
failure exits before any page is fetched).  Note the source sets
`status.completed = true` and saves it after the loop on every
non-interrupted exit path, including the 401/403 break. -/
def downloadOrders (pageSize : Nat) (api : ApiEnv) (resume : Bool)
    (statusFile : Option DownloadStatus) (store0 : Store)
    (env : List PageFetch) : DlRun :=
  let status0 := statusFile.getD initialDownloadStatus
  if resume && status0.completed then
    { kind := .alreadyCompleted,
      state := { store := store0, status := status0, persisted := statusFile },
      pagesAttempted := [], calls := [], authAborted := false, interrupted := false }
  else
    let status := if resume then status0 else initialDownloadStatus
    let startPage := status.lastProcessedPage + 1
    let out :=
      downloadLoop pageSize api env startPage
        { store := store0, status := status, persisted := statusFile }
    if out.ranOut then
      { kind := .ran, state := out.state, pagesAttempted := out.pagesAttempted,
        calls := out.calls, authAborted := out.authAborted, interrupted := true }
    else
      let finalStatus := { out.state.status with completed := true }
      { kind := .ran,
        state := { out.state with status := finalStatus, persisted := some finalStatus },
        pagesAttempted := out.pagesAttempted, calls := out.calls,
        authAborted := out.authAborted, interrupted := false }

end Dl

/-! ## Process stage (`OrderProcessor.processOrders`)

The process stage is embedded in three parts mirroring the source: the
entry checks (cache directory, already-completed short-circuit, empty
store), the resume skip over the sorted enumeration, and the per-file
loop.  The loop is given an environment mapping each file name to what
happens when it is handled (load failure, a write failure, or success
with the number of formatted lines), and produces both the final status
and a trace of observable events in program order. -/

namespace Pr

/-- An entry of the process checkpoint `errors` array. -/
structure PErr where
  file : String
  deriving DecidableEq

/-- The process checkpoint (`process-status.json`). -/
structure ProcessStatus where
  totalFiles : Nat
  processedFiles : Nat
  processedOrders : Nat
  totalLines : Nat
  completed : Bool
  errors : List PErr
  outputFile : Option String
  lastProcessedFile : Option String
  deriving DecidableEq

/-- The default status `loadStatus` returns when no file exists. -/
def initialProcessStatus : ProcessStatus :=
  { totalFiles := 0, processedFiles := 0, processedOrders := 0, totalLines := 0,
    completed := false, errors := [], outputFile := none, lastProcessedFile := none }

/-- How the entry phase of `processOrders` resolves. -/
inductive EntryOutcome where
  | fatalNoCacheDir
  | alreadyCompleted
  | fatalNoFiles
  | proceed (orderFiles : List String)
  deriving DecidableEq

/-- Embedding of the entry checks of `processOrders`, in source order:
missing cache directory exits; `resume && status.completed` returns;
an empty enumeration exits with the no-files error. -/
def processOrdersEntry (resume : Bool) (status : ProcessStatus)
    (cacheDirExists : Bool) (dirFiles : List String) : EntryOutcome :=
  if !cacheDirExists then .fatalNoCacheDir
  else if resume && status.completed then .alreadyCompleted
  else
    let orderFiles := getCachedOrderFiles dirFiles
    if orderFiles.isEmpty then .fatalNoFiles
    else .proceed orderFiles

/-- Process exit code of each entry outcome (`process.exit(1)` on the
fatal paths, normal return otherwise). -/
def entryExitCode : EntryOutcome → Option Nat
  | .fatalNoCacheDir => some 1
  | .fatalNoFiles => some 1
  | .alreadyCompleted => none
  | .proceed _ => none

/-- Embedding of the resume skip: when resuming with a recorded
`lastProcessedFile` that occurs in the enumeration (`indexOf >= 0`), the
files to process are the slice strictly after that index. -/
def remainingFiles (resume : Bool) (lastProcessedFile : Option String)
    (orderFiles : List String) : List String :=
  if resume then
    match lastProcessedFile with
    | some lf =>
      if orderFiles.contains lf then orderFiles.drop (orderFiles.indexOf lf + 1)
      else orderFiles
    | none => orderFiles
  else orderFiles

/-- What handling one cached file does: `loadOrder` returns null, the
format-and-write step throws, or everything succeeds producing `lines`
formatted rows. -/
inductive FileOutcome where
  | loadFail
  | writeFail
  | ok (lines : Nat)
  deriving DecidableEq

/-- One observable event of the per-file loop, in program order. -/
inductive PEvent where
  | loadEv (f : String) (ok : Bool)
  | writeEv (f : String) (ok : Bool)
  | deleteEv (f : String)
  | checkpointEv (processedFiles : Nat)
  deriving DecidableEq

/-- Embedding of one iteration of the per-file loop: a failed load
records an error and continues; a throwing write is caught, records an
error, and continues; on success the counters advance, the file is
deleted unless `keepFiles`, and every tenth processed file persists the
checkpoint. -/
def processOneFile (keepFiles : Bool) (st : ProcessStatus) (f : String)
    (outcome : FileOutcome) : ProcessStatus × List PEvent :=
  match outcome with
  | .loadFail =>
    ({ st with errors := st.errors ++ [⟨f⟩] }, [.loadEv f false])
  | .writeFail =>
    ({ st with errors := st.errors ++ [⟨f⟩] }, [.loadEv f true, .writeEv f false])
  | .ok n =>
    let st' :=
      { st with
        processedFiles := st.processedFiles + 1,
        processedOrders := st.processedOrders + 1,
        totalLines := st.totalLines + n,
        lastProcessedFile := some f }
    let evs :=
      [PEvent.loadEv f true, PEvent.writeEv f true] ++
        (if keepFiles then [] else [PEvent.deleteEv f]) ++
        (if st'.processedFiles % 10 = 0 then [PEvent.checkpointEv st'.processedFiles] else [])
    (st', evs)

/-- The per-file loop over the remaining files. -/
def processFilesLoop (env : String → FileOutcome) (keepFiles : Bool) :
    List String → ProcessStatus → ProcessStatus × List PEvent
  | [], st => (st, [])
  | f :: rest, st =>
    let r := processOneFile keepFiles st f (env f)
    let out := processFilesLoop env keepFiles rest r.1
    (out.1, r.2 ++ out.2)

/-- Scanner for the temporal property of the event trace: every
`deleteEv f` is preceded by a `writeEv f true`.  `seen` records whether a
successful write of `f` has occurred so far. -/
def deletesAfterWrite (f : String) : List PEvent → Bool → Bool
  | [], _ => true
  | e :: rest, seen =>
    match e with
    | .deleteEv g =>
      if g = f then seen && deletesAfterWrite f rest seen
      else deletesAfterWrite f rest seen
    | .writeEv g ok => deletesAfterWrite f rest (seen || (g = f && ok))
    | _ => deletesAfterWrite f rest seen

end Pr

/-! ## CSV formatting (`CSVWriter.formatOrderData`)

The formatter is embedded as a pure function from an order document to
its row sequence.  Dynamic JavaScript values are encoded as follows: an
optional field that the source tests for truthiness is an `Option` (with
`none` covering absent and falsy values such as the empty string); the
`product_options` field of an item carries either a string whose
`JSON.parse` throws (`malformedStr`) or the parsed object.  The
fulfillment-date column (`extractFulfillmentDate`) selects among shipment
and status-history timestamps; no claim references it and calendar
arithmetic is outside this embedding, so the row omits that one column. -/

namespace Csv

/-- One entry of `options.attributes_info`. -/
structure AttrInfo where
  label : String
  value : String
  deriving DecidableEq

/-- The `product_options` field of an item: either a string on which
`JSON.parse` throws, or an options object with an optional
`attributes_info` array (this covers both the string-encoded and the
already-parsed object forms the source distinguishes). -/
inductive ProductOptionsField where
  | malformedStr (raw : String)
  | options (attributes_info : Option (List AttrInfo))
  deriving DecidableEq

/-- The slice of an order line item the formatter reads. -/
structure OrderItem where
  sku : String
  name : String
  qty_ordered : Nat
  price : Int
  row_total : Int
  product_type : Option String
  item_id : Nat
  parent_item_id : Option Nat
  product_options : Option ProductOptionsField
  deriving DecidableEq

/-- The street field of an address: an array of lines, a single string,
or absent. -/
inductive StreetField where
  | arr (parts : List String)
  | str (s : String)
  | missing
  deriving DecidableEq

/-- A source address record (billing, or the shipping-assignment
address). -/
structure SrcAddress where
  firstname : Option String
  lastname : Option String
  company : Option String
  street : StreetField
  city : Option String
  region : Option String
  region_code : Option String
  postcode : Option String
  country_id : Option String
  telephone : Option String
  deriving DecidableEq

/-- The extracted address block of a row. -/
structure AddressOut where
  firstname : String
  lastname : String
  company : String
  street : String
  city : String
  region : String
  postcode : String
  country_id : String
  telephone : String
  deriving DecidableEq

/-- The all-empty address used when the source record is absent. -/
def defaultAddress : AddressOut :=
  { firstname := "", lastname := "", company := "", street := "", city := "",
    region := "", postcode := "", country_id := "", telephone := "" }

/-- Rendering of the street field (`Array.isArray ? join(', ') : (street || '')`). -/
def streetStr : StreetField → String
  | .arr parts => String.intercalate ", " parts
  | .str s => s
  | .missing => ""

/-- Shared body of `extractBillingAddress` and `extractShippingAddress`
applied to a present source record. -/
def extractAddressFields (a : SrcAddress) : AddressOut :=
  { firstname := a.firstname.getD ""
    lastname := a.lastname.getD ""
    company := a.company.getD ""
    street := streetStr a.street
    city := a.city.getD ""
    region := a.region.getD (a.region_code.getD "")
    postcode := a.postcode.getD ""
    country_id := a.country_id.getD ""
    telephone := a.telephone.getD "" }

/-- Embedding of `extractBillingAddress`. -/
def extractBillingAddress (billing : Option SrcAddress) : AddressOut :=
  match billing with
  | none => defaultAddress
  | some a => extractAddressFields a

/-- One element of `extension_attributes.shipping_assignments`. -/
structure ShippingAssignment where
  shippingAddress : Option SrcAddress
  deriving DecidableEq

/-- Embedding of `extractShippingAddress`: the address of the first
shipping assignment when the whole optional chain is present. -/
def extractShippingAddress (assignments : Option (List ShippingAssignment)) :
    AddressOut :=
  match assignments with
  | some (sa :: _) =>
    match sa.shippingAddress with
    | some a => extractAddressFields a
    | none => defaultAddress
  | _ => defaultAddress

/-- One entry of the transactions response `items`. -/
structure TxItem where
  transaction_id : String
  deriving DecidableEq

/-- The transactions document (`transactions || order._transactions`);
its `items` array may be absent. -/
structure TxData where
  items : Option (List TxItem)
  deriving DecidableEq

/-- The slice of an order document the formatter reads.  `tx` is the
transaction data in effect (the explicit argument in the one-pass
exporter, `order._transactions` in the cached-processing path);
`payment_method` is `order.payment && order.payment.method`. -/
structure Order where
  increment_id : String
  created_at : String
  status : String
  customer_email : String
  customer_firstname : Option String
  customer_lastname : Option String
  total_item_count : Nat
  subtotal : Int
  shipping_amount : Int
  tax_amount : Int
  grand_total : Int
  shipping_description : String
  payment_method : Option String
  tx : Option TxData
  billing_address : Option SrcAddress
  shipping_assignments : Option (List ShippingAssignment)
  items : List OrderItem
  deriving DecidableEq

/-- The `transaction_ids` column:
`transactionData?.items?.map(t => t.transaction_id).join(';') || ''`. -/
def transactionIdsStr (tx : Option TxData) : String :=
  match tx with
  | some td =>
    match td.items with
    | some its => String.intercalate ";" (its.map (fun t => t.transaction_id))
    | none => ""
  | none => ""

/-- The `product_options` column of one item: absent or malformed options
and options without `attributes_info` all render as the empty string; a
present `attributes_info` renders as `label: value` pairs joined by
semicolons.  The `JSON.parse` failure is caught locally (the
`malformedStr` case) and leaves the column empty. -/
def itemProductOptions : Option ProductOptionsField → String
  | none => ""
  | some (.malformedStr _) => ""
  | some (.options none) => ""
  | some (.options (some attrs)) =>
    String.intercalate "; " (attrs.map (fun a => a.label ++ ": " ++ a.value))

/-- The `item_parent_sku` column: the sku of the item whose `item_id`
equals this item's `parent_item_id`, if any. -/
def parentSku (items : List OrderItem) (item : OrderItem) : String :=
  match item.parent_item_id with
  | none => ""
  | some pid =>
    match items.find? (fun i => i.item_id == pid) with
    | some p => p.sku
    | none => ""

/-- One formatted output row. -/
structure CsvRow where
  increment_id : String
  created_at : String
  status : String
  customer_email : String
  customer_firstname : String
  customer_lastname : String
  total_item_count : Nat
  subtotal : Int
  shipping_amount : Int
  tax_amount : Int
  grand_total : Int
  shipping_description : String
  payment_method : String
  transaction_ids : String
  billing : AddressOut
  shipping : AddressOut
  item_sku : String
  item_parent_sku : String
  item_name : String
  item_qty : Nat
  item_price : Int
  item_row_total : Int
  product_type : String
  product_options : String
  deriving DecidableEq

/-- The row built for one item (the spread of `baseOrderData` plus the
item-specific columns). -/
def itemRow (order : Order) (item : OrderItem) : CsvRow :=
  { increment_id := order.increment_id
    created_at := order.created_at
    status := order.status
    customer_email := order.customer_email
    customer_firstname := order.customer_firstname.getD "Guest"
    customer_lastname := order.customer_lastname.getD "Guest"
    total_item_count := order.total_item_count
    subtotal := order.subtotal
    shipping_amount := order.shipping_amount
    tax_amount := order.tax_amount
    grand_total := order.grand_total
    shipping_description := order.shipping_description
    payment_method := order.payment_method.getD "N/A"
    transaction_ids := transactionIdsStr order.tx
    billing := extractBillingAddress order.billing_address
    shipping := extractShippingAddress order.shipping_assignments
    item_sku := item.sku
    item_parent_sku := parentSku order.items item
    item_name := item.name
    item_qty := item.qty_ordered
    item_price := item.price
    item_row_total := item.row_total
    product_type := item.product_type.getD ""
    product_options := itemProductOptions item.product_options }

/-- Embedding of `CSVWriter.formatOrderData`: one row per order item. -/
def formatOrderData (order : Order) : List CsvRow :=
  order.items.map (itemRow order)

end Csv

/-! ## Spec-level predicates and concrete scenarios

The remaining definitions state properties claimed of the pipeline in
terms of the embeddings above, and fix the concrete runs the theorems
below evaluate. -/

/-- The `total_count` reported by the first page response of an
environment, as the termination claim reads it. -/
def firstPageTotal : List Dl.PageFetch → Option Nat
  | .ok _ tc :: _ => some (tc.getD 0)
  | _ => none

/-- Formalisation of the claimed termination rule: the page loop stops as
soon as a page satisfies `page * pageSize ≥ total_count of page 1`, so no
page may be attempted after one that already satisfied the rule. -/
def stopsOnFirstPageTotal (pageSize firstTotal : Nat) (run : Dl.DlRun) : Prop :=
  ∀ p ∈ run.pagesAttempted, ∀ q ∈ run.pagesAttempted,
    q < p → q * pageSize < firstTotal

instance (pageSize firstTotal : Nat) (run : Dl.DlRun) :
    Decidable (stopsOnFirstPageTotal pageSize firstTotal run) := by
  unfold stopsOnFirstPageTotal; infer_instance

/-- An API environment serving empty transaction and shipment lists. -/
def apiNone : Dl.ApiEnv :=
  { transactionsFor := fun _ => [], shipmentsFor := fun _ => [] }

/-- Orders used by the concrete download scenarios. -/
def mkOrder (entityId : Nat) : Dl.Order :=
  { entity_id := entityId, increment_id := "1000" ++ Nat.repr entityId,
    status := "processing", hasShipmentsAttr := false }

/-- Environment of the auth-abort scenario: page 1 succeeds with two
orders out of a reported total of 10, the page 2 fetch throws HTTP 401. -/
def envAuth : List Dl.PageFetch :=
  [.ok [mkOrder 201, mkOrder 202] (some 10), .err (some 401)]

/-- Fresh download run over `envAuth` with page size 2. -/
def runAuth : Dl.DlRun :=
  Dl.downloadOrders 2 apiNone false none [] envAuth

/-- A `--resume` run started from the state `runAuth` left behind, with
the remote now healthy. -/
def runAuthResumed : Dl.DlRun :=
  Dl.downloadOrders 2 apiNone true runAuth.state.persisted runAuth.state.store
    [.ok [mkOrder 203] (some 10)]

/-- Environment of the shifting-total scenario: page 1 reports
`total_count = 3`, later pages report 10 and keep returning items until
page 4 is empty. -/
def envShiftingTotal : List Dl.PageFetch :=
  [.ok [mkOrder 1, mkOrder 2] (some 3),
   .ok [mkOrder 3, mkOrder 4] (some 10),
   .ok [mkOrder 5, mkOrder 6] (some 10),
   .ok [] none]

/-- Fresh download run over `envShiftingTotal` with page size 2. -/
def runShiftingTotal : Dl.DlRun :=
  Dl.downloadOrders 2 apiNone false none [] envShiftingTotal

/-- Environment of the spec scenario: page size 2, `total_count = 3`,
three orders across two pages. -/
def envScenario32 : List Dl.PageFetch :=
  [.ok [mkOrder 11, mkOrder 12] (some 3), .ok [mkOrder 13] (some 3)]

/-- Fresh download run over `envScenario32` with page size 2. -/
def runScenario32 : Dl.DlRun :=
  Dl.downloadOrders 2 apiNone false none [] envScenario32

/-- A line item whose `product_options` string fails to parse. -/
def csvItemMalformed : Csv.OrderItem :=
  { sku := "SKU1", name := "Widget", qty_ordered := 1, price := 10,
    row_total := 10, product_type := some "simple", item_id := 1,
    parent_item_id := none,
    product_options := some (Csv.ProductOptionsField.malformedStr "not-json") }

/-- Order document holding `csvItemMalformed`, used by the formatter
witness. -/
def csvOrderMalformed : Csv.Order :=
  { increment_id := "100000001", created_at := "2024-01-01T00:00:00Z",
    status := "processing", customer_email := "a@example.com",
    customer_firstname := none, customer_lastname := none,
    total_item_count := 1, subtotal := 10, shipping_amount := 0,
    tax_amount := 0, grand_total := 10, shipping_description := "flat",
    payment_method := none, tx := none, billing_address := none,
    shipping_assignments := none, items := [csvItemMalformed] }

/-! ## Order properties of the enumeration comparison -/

theorem charListLe_total (a b : List Char) :
    charListLe a b = true ∨ charListLe b a = true := by
  induction a generalizing b with
  | nil => left; rfl
  | cons c cs ih =>
    cases b with
    | nil => right; rfl
    | cons d ds =>
      by_cases hcd : c = d
      · subst hcd
        rcases ih ds with h | h
        · left; simpa [charListLe] using h
        · right; simpa [charListLe] using h
      · rcases lt_or_gt_of_ne hcd with h | h
        · left; simp [charListLe, hcd, h]
        · right; simp [charListLe, Ne.symm hcd, h, not_lt_of_gt h]

theorem charListLe_trans {a b c : List Char}
    (hab : charListLe a b = true) (hbc : charListLe b c = true) :
    charListLe a c = true := by
  induction a generalizing b c with
  | nil => rfl
  | cons x xs ih =>
    cases b with
    | nil => simp [charListLe] at hab
    | cons y ys =>
      cases c with
      | nil => simp [charListLe] at hbc
      | cons z zs =>
        by_cases hxy : x = y
        · subst hxy
          by_cases hyz : x = z
          · subst hyz
            simp [charListLe] at hab hbc ⊢
            exact ih hab hbc
          · simp [charListLe, hyz] at hbc ⊢
            exact hbc
        · by_cases hyz : y = z
          · subst hyz
            simpa [charListLe, hxy] using hab
          · simp [charListLe, hxy] at hab
            simp [charListLe, hyz] at hbc
            have hxz : x < z := lt_trans hab hbc
            simp [charListLe, ne_of_lt hxz, hxz]

theorem charListLe_antisymm {a b : List Char}
    (hab : charListLe a b = true) (hba : charListLe b a = true) :
    a = b := by
  induction a generalizing b with
  | nil =>
    cases b with
    | nil => rfl
    | cons y ys => simp [charListLe] at hba
  | cons x xs ih =>
    cases b with
    | nil => simp [charListLe] at hab
    | cons y ys =>
      by_cases hxy : x = y
      · subst hxy
        simp [charListLe] at hab hba
        exact congrArg (x :: ·) (ih hab hba)
      · simp [charListLe, hxy] at hab
        simp [charListLe, Ne.symm hxy] at hba
        exact absurd hba (not_lt_of_gt hab)

theorem strLeProp_total (a b : String) : strLeProp a b ∨ strLeProp b a :=
  charListLe_total a.data b.data

theorem strLeProp_trans {a b c : String} (hab : strLeProp a b)
    (hbc : strLeProp b c) : strLeProp a c :=
  charListLe_trans hab hbc

theorem strLeProp_antisymm {a b : String} (hab : strLeProp a b)
    (hba : strLeProp b a) : a = b :=
  String.ext (charListLe_antisymm hab hba)

/-! ## Properties of the store enumeration -/

theorem getCachedOrderFiles_sorted (dirFiles : List String) :
    List.Sorted strLeProp (getCachedOrderFiles dirFiles) := by
  haveI : IsTotal String strLeProp := ⟨strLeProp_total⟩
  haveI : IsTrans String strLeProp := ⟨fun _ _ _ => strLeProp_trans⟩
  exact List.sorted_insertionSort strLeProp (dirFiles.filter isOrderFile)

theorem getCachedOrderFiles_perm (dirFiles : List String) :
    (getCachedOrderFiles dirFiles).Perm (dirFiles.filter isOrderFile) :=
  List.perm_insertionSort strLeProp (dirFiles.filter isOrderFile)

theorem mem_getCachedOrderFiles {dirFiles : List String} {f : String} :
    f ∈ getCachedOrderFiles dirFiles ↔ f ∈ dirFiles.filter isOrderFile :=
  (getCachedOrderFiles_perm dirFiles).mem_iff

theorem getCachedOrderFiles_perm_invariant {l₁ l₂ : List String}
    (h : l₁.Perm l₂) : getCachedOrderFiles l₁ = getCachedOrderFiles l₂ := by
  haveI : IsAntisymm String strLeProp := ⟨fun _ _ => strLeProp_antisymm⟩
  exact List.eq_of_perm_of_sorted
    ((getCachedOrderFiles_perm l₁).trans ((h.filter isOrderFile).trans
      (getCachedOrderFiles_perm l₂).symm))
    (getCachedOrderFiles_sorted l₁) (getCachedOrderFiles_sorted l₂)

theorem getCachedOrderFiles_nodup {dirFiles : List String}
    (h : dirFiles.Nodup) : (getCachedOrderFiles dirFiles).Nodup :=
  (getCachedOrderFiles_perm dirFiles).nodup_iff.mpr (h.filter isOrderFile)

/-- In a duplicate-free list, the suffix strictly after the position of a
member is exactly the sublist of elements with a strictly larger index. -/
theorem drop_indexOf_succ {l : List String} (hnd : l.Nodup) {v : String}
    (hv : v ∈ l) :
    l.drop (l.indexOf v + 1) =
      l.filter (fun x => decide (l.indexOf v < l.indexOf x)) := by
  induction l with
  | nil => cases hv
  | cons a t ih =>
    rcases List.nodup_cons.mp hnd with ⟨hat, hndt⟩
    by_cases hva : v = a
    · subst hva
      have h0 : List.indexOf v (v :: t) = 0 := List.indexOf_cons_self v t
      simp only [h0, List.drop_succ_cons, List.drop_zero]
      symm
      rw [List.filter_cons]
      split
      · exfalso
        simp_all
      · apply List.filter_eq_self.mpr
        intro x hx
        have hxv : x ≠ v := fun hxv => hat (hxv ▸ hx)
        rw [List.indexOf_cons_ne t (Ne.symm hxv)]
        simp
    · have hvt : v ∈ t := (List.mem_cons.mp hv).resolve_left hva
      have hva' : List.indexOf v (a :: t) = List.indexOf v t + 1 :=
        List.indexOf_cons_ne t (Ne.symm hva)
      rw [hva', List.drop_succ_cons]
      symm
      rw [List.filter_cons]
      split
      · exfalso
        simp_all [List.indexOf_cons_self]
      · have hcongr :
            t.filter (fun x => decide (List.indexOf v t + 1 < List.indexOf x (a :: t))) =
              t.filter (fun x => decide (List.indexOf v t < List.indexOf x t)) := by
          apply List.filter_congr
          intro x hx
          have hxa : x ≠ a := fun hxa => hat (hxa ▸ hx)
          rw [List.indexOf_cons_ne t (Ne.symm hxa)]
          simp [Nat.succ_lt_succ_iff]
        rw [hcongr]
        exact (ih hndt hvt).symm

/-! ## Lookup lemmas for the filesystem and store models -/

theorem lookup_filter_key_ne {β : Type} (l : List (Nat × β)) {i j : Nat}
    (hne : i ≠ j) :
    (l.filter (fun kv => !decide (kv.1 = j))).lookup i = l.lookup i := by
  induction l with
  | nil => rfl
  | cons kv t ih =>
    obtain ⟨k, v⟩ := kv
    by_cases hk : k = j
    · subst hk
      have hik : (i == k) = false := beq_eq_false_iff_ne.mpr hne
      simp [List.filter_cons, List.lookup_cons, hik, ih]
    · have hkeep : (!decide ((k, v).1 = j)) = true := by simp [hk]
      simp only [List.filter_cons, hkeep, if_true]
      by_cases hik : i = k
      · subst hik
        simp [List.lookup_cons]
      · have hik' : (i == k) = false := beq_eq_false_iff_ne.mpr hik
        simp [List.lookup_cons, hik', ih]

theorem lookup_filter_skey_ne (l : List (String × String)) {i j : String}
    (hne : i ≠ j) :
    (l.filter (fun kv => !decide (kv.1 = j))).lookup i = l.lookup i := by
  induction l with
  | nil => rfl
  | cons kv t ih =>
    obtain ⟨k, v⟩ := kv
    by_cases hk : k = j
    · subst hk
      have hik : (i == k) = false := beq_eq_false_iff_ne.mpr hne
      simp [List.filter_cons, List.lookup_cons, hik, ih]
    · have hkeep : (!decide ((k, v).1 = j)) = true := by simp [hk]
      simp only [List.filter_cons, hkeep, if_true]
      by_cases hik : i = k
      · subst hik
        simp [List.lookup_cons]
      · have hik' : (i == k) = false := beq_eq_false_iff_ne.mpr hik
        simp [List.lookup_cons, hik', ih]

theorem fsWrite_read_self (fs : Fs.FS) (p c : String) :
    Fs.fsRead (Fs.fsWrite fs p c) p = some c := by
  unfold Fs.fsWrite Fs.fsRead
  simp

theorem fsWrite_read_ne (fs : Fs.FS) {p q : String} (c : String)
    (hne : q ≠ p) : Fs.fsRead (Fs.fsWrite fs p c) q = Fs.fsRead fs q := by
  unfold Fs.fsWrite Fs.fsRead
  have h : (q == p) = false := beq_eq_false_iff_ne.mpr hne
  simp only [List.lookup_cons, h, decide_not]
  exact lookup_filter_skey_ne fs hne

theorem storePut_lookup_self (store : Dl.Store) (j : Nat) (d : Dl.SavedDoc) :
    (Dl.storePut store j d).lookup j = some d := by
  unfold Dl.storePut
  simp

theorem storePut_lookup_ne (store : Dl.Store) {i j : Nat} (d : Dl.SavedDoc)
    (hne : i ≠ j) : (Dl.storePut store j d).lookup i = store.lookup i := by
  unfold Dl.storePut
  have h : (i == j) = false := beq_eq_false_iff_ne.mpr hne
  simp only [List.lookup_cons, h, decide_not]
  exact lookup_filter_key_ne store hne

theorem storePut_lookup_isSome (store : Dl.Store) (j : Nat) (d : Dl.SavedDoc)
    (i : Nat) (h : (store.lookup i).isSome = true) :
    ((Dl.storePut store j d).lookup i).isSome = true := by
  by_cases hij : i = j
  · subst hij
    rw [storePut_lookup_self]
    rfl
  · rw [storePut_lookup_ne store d hij]
    exact h

/-! ## Per-order loop invariants (download stage) -/

theorem processOrderItem_skip (api : Dl.ApiEnv) (s : Dl.Store) (o : Dl.Order)
    (h : Dl.storeHas s o.entity_id = true) :
    Dl.processOrderItem api s o =
      { store := s, calls := [], downloaded := false } := by
  simp [Dl.processOrderItem, h]

theorem processOrderItem_calls (api : Dl.ApiEnv) (s : Dl.Store) (o : Dl.Order) :
    ∀ c ∈ (Dl.processOrderItem api s o).calls,
      Dl.callOrderId c = some o.entity_id := by
  unfold Dl.processOrderItem
  by_cases hhas : Dl.storeHas s o.entity_id
  · simp [hhas]
  · simp only [hhas, if_false, Bool.false_eq_true]
    intro c hc
    rcases List.mem_cons.mp hc with hc | hc
    · subst hc; rfl
    · split at hc
      · rcases List.mem_singleton.mp hc with rfl
        rfl
      · cases hc

theorem processOrderItem_store_lookup (api : Dl.ApiEnv) (s : Dl.Store)
    (o : Dl.Order) {i : Nat} (hne : i ≠ o.entity_id) :
    (Dl.processOrderItem api s o).store.lookup i = s.lookup i := by
  unfold Dl.processOrderItem
  by_cases hhas : Dl.storeHas s o.entity_id
  · simp [hhas]
  · simp only [hhas, if_false, Bool.false_eq_true]
    exact storePut_lookup_ne s _ hne

theorem foldl_pageItemStep_preserves (api : Dl.ApiEnv) (id : Nat)
    (items : List Dl.Order) :
    ∀ (acc : Dl.PageItemsOutcome),
      (acc.store.lookup id).isSome = true →
      (∀ c ∈ acc.calls, Dl.callOrderId c ≠ some id) →
      (items.foldl (Dl.pageItemStep api) acc).store.lookup id = acc.store.lookup id ∧
      (∀ c ∈ (items.foldl (Dl.pageItemStep api) acc).calls,
        Dl.callOrderId c ≠ some id) := by
  induction items with
  | nil =>
    intro acc hid hcalls
    exact ⟨rfl, hcalls⟩
  | cons o rest ih =>
    intro acc hid hcalls
    simp only [List.foldl_cons]
    have hstep_store :
        (Dl.pageItemStep api acc o).store.lookup id = acc.store.lookup id := by
      by_cases hhas : Dl.storeHas acc.store o.entity_id = true
      · simp [Dl.pageItemStep, processOrderItem_skip api acc.store o hhas]
      · have hne : id ≠ o.entity_id := by
          intro he
          apply hhas
          unfold Dl.storeHas
          rw [← he]
          exact hid
        simp only [Dl.pageItemStep]
        exact processOrderItem_store_lookup api acc.store o hne
    have hstep_calls :
        ∀ c ∈ (Dl.pageItemStep api acc o).calls, Dl.callOrderId c ≠ some id := by
      intro c hc
      simp only [Dl.pageItemStep] at hc
      rcases List.mem_append.mp hc with h | h
      · exact hcalls c h
      · by_cases hhas : Dl.storeHas acc.store o.entity_id = true
        · rw [processOrderItem_skip api acc.store o hhas] at h
          cases h
        · have hne : id ≠ o.entity_id := by
            intro he
            apply hhas
            unfold Dl.storeHas
            rw [← he]
            exact hid
          rw [processOrderItem_calls api acc.store o c h]
          intro hEq
          exact hne (Option.some.inj hEq).symm
    obtain ⟨h1, h2⟩ :=
      ih (Dl.pageItemStep api acc o) (by rw [hstep_store]; exact hid) hstep_calls
    exact ⟨by rw [h1, hstep_store], h2⟩

/-! ## Event-trace lemmas (process stage) -/

theorem deletesAfterWrite_append_segment (f g : String) (keep : Bool)
    (st : Pr.ProcessStatus) (outcome : Pr.FileOutcome) (tr : List Pr.PEvent)
    (htr : ∀ s : Bool, Pr.deletesAfterWrite f tr s = true) :
    ∀ seen,
      Pr.deletesAfterWrite f ((Pr.processOneFile keep st g outcome).2 ++ tr) seen = true := by
  intro seen
  cases outcome with
  | loadFail => simp [Pr.processOneFile, Pr.deletesAfterWrite, htr]
  | writeFail => simp [Pr.processOneFile, Pr.deletesAfterWrite, htr]
  | ok n =>
    by_cases hgf : g = f
    · subst hgf
      simp only [Pr.processOneFile]
      split_ifs <;> simp [Pr.deletesAfterWrite, htr]
    · simp only [Pr.processOneFile]
      split_ifs <;> simp [Pr.deletesAfterWrite, hgf, htr]

theorem deletesAfterWrite_loop (envp : String → Pr.FileOutcome) (keep : Bool)
    (f : String) (files : List String) :
    ∀ (st : Pr.ProcessStatus) (seen : Bool),
      Pr.deletesAfterWrite f (Pr.processFilesLoop envp keep files st).2 seen = true := by
  induction files with
  | nil =>
    intro st seen
    rfl
  | cons g rest ih =>
    intro st seen
    simp only [Pr.processFilesLoop]
    exact deletesAfterWrite_append_segment f g keep st (envp g) _ (fun s => ih _ s) seen

theorem deletesAfterWrite_spec (f : String) :
    ∀ (tr : List Pr.PEvent) (seen : Bool),
      Pr.deletesAfterWrite f tr seen = true →
      ∀ pre suf, tr = pre ++ Pr.PEvent.deleteEv f :: suf →
        Pr.PEvent.writeEv f true ∈ pre ∨ seen = true := by
  intro tr
  induction tr with
  | nil =>
    intro seen _ pre suf heq
    exact absurd heq (by simp)
  | cons e rest ih =>
    intro seen h pre suf heq
    cases pre with
    | nil =>
      simp only [List.nil_append, List.cons.injEq] at heq
      obtain ⟨rfl, hrest⟩ := heq
      right
      simp [Pr.deletesAfterWrite] at h
      exact h.1
    | cons e' pre' =>
      simp only [List.cons_append, List.cons.injEq] at heq
      obtain ⟨rfl, hrest⟩ := heq
      cases e with
      | loadEv g ok =>
        have h' : Pr.deletesAfterWrite f rest seen = true := by
          simpa [Pr.deletesAfterWrite] using h
        rcases ih seen h' pre' suf hrest with hmem | hseen
        · exact Or.inl (List.mem_cons_of_mem _ hmem)
        · exact Or.inr hseen
      | checkpointEv n =>
        have h' : Pr.deletesAfterWrite f rest seen = true := by
          simpa [Pr.deletesAfterWrite] using h
        rcases ih seen h' pre' suf hrest with hmem | hseen
        · exact Or.inl (List.mem_cons_of_mem _ hmem)
        · exact Or.inr hseen
      | writeEv g ok =>
        have h' : Pr.deletesAfterWrite f rest (seen || (decide (g = f) && ok)) = true := by
          simpa [Pr.deletesAfterWrite] using h
        rcases ih _ h' pre' suf hrest with hmem | hseen
        · exact Or.inl (List.mem_cons_of_mem _ hmem)
        · rw [Bool.or_eq_true] at hseen
          rcases hseen with hs | hgo
          · exact Or.inr hs
          · rw [Bool.and_eq_true] at hgo
            obtain ⟨hgd, hok⟩ := hgo
            have hg : g = f := of_decide_eq_true hgd
            subst hg
            subst hok
            exact Or.inl (List.mem_cons_self _ _)
      | deleteEv g =>
        by_cases hgf : g = f
        · subst hgf
          simp [Pr.deletesAfterWrite] at h
          rcases ih seen h.2 pre' suf hrest with hmem | hseen
          · exact Or.inl (List.mem_cons_of_mem _ hmem)
          · exact Or.inr hseen
        · have h' : Pr.deletesAfterWrite f rest seen = true := by
            simpa [Pr.deletesAfterWrite, hgf] using h
          rcases ih seen h' pre' suf hrest with hmem | hseen
          · exact Or.inl (List.mem_cons_of_mem _ hmem)
          · exact Or.inr hseen

theorem deleteEv_not_mem_of_fail (envp : String → Pr.FileOutcome) (keep : Bool)
    (f : String)
    (hf : envp f = Pr.FileOutcome.loadFail ∨ envp f = Pr.FileOutcome.writeFail) :
    ∀ (files : List String) (st : Pr.ProcessStatus),
      Pr.PEvent.deleteEv f ∉ (Pr.processFilesLoop envp keep files st).2 := by
  intro files
  induction files with
  | nil =>
    intro st h
    cases h
  | cons g rest ih =>
    intro st h
    simp only [Pr.processFilesLoop, List.mem_append] at h
    rcases h with h | h
    · cases hg : envp g with
      | loadFail =>
        rw [hg] at h
        simp [Pr.processOneFile] at h
      | writeFail =>
        rw [hg] at h
        simp [Pr.processOneFile] at h
      | ok n =>
        have hgf : g ≠ f := by
          intro hgf
          subst hgf
          rcases hf with hf | hf <;> rw [hf] at hg <;> cases hg
        rw [hg] at h
        simp only [Pr.processOneFile] at h
        split_ifs at h <;> simp [Ne.symm hgf] at h
    · exact ih _ h

theorem deleteEv_mem_imp (envp : String → Pr.FileOutcome) (keep : Bool)
    (g : String) :
    ∀ (files : List String) (st : Pr.ProcessStatus),
      Pr.PEvent.deleteEv g ∈ (Pr.processFilesLoop envp keep files st).2 →
      g ∈ files := by
  intro files
  induction files with
  | nil =>
    intro st h
    cases h
  | cons f rest ih =>
    intro st h
    simp only [Pr.processFilesLoop, List.mem_append] at h
    rcases h with h | h
    · cases hf : envp f with
      | loadFail =>
        rw [hf] at h
        simp [Pr.processOneFile] at h
      | writeFail =>
        rw [hf] at h
        simp [Pr.processOneFile] at h
      | ok n =>
        rw [hf] at h
        simp only [Pr.processOneFile] at h
        split_ifs at h <;> simp at h <;> simp [h]
    · exact List.mem_cons_of_mem _ (ih _ h)

/-! ## Claim theorems -/

/-- C1: at the failing input (a fresh run, page size 2, where page 1
succeeds with two of a reported 10 orders and the page 2 fetch throws
HTTP 401) the stage does abort with no further page attempts and the
checkpoint keeps `lastProcessedPage = 1`; but the save after the loop
then persists `completed = true`, so a subsequent `--resume` run returns
immediately as already completed and fetches no page at all — where the
claim (and the intent behind the logged `Stopping download.`) requires
`completed = false` with the resumed run starting at page 2. -/
theorem auth_abort_marks_completed :
    runAuth.authAborted = true ∧
    runAuth.pagesAttempted = [1, 2] ∧
    runAuth.state.persisted =
      some { totalOrders := 10, downloadedOrders := 2, lastProcessedPage := 1,
             completed := true, errors := [Dl.DlError.pageErr 2] } ∧
    runAuthResumed.kind = Dl.DlRunKind.alreadyCompleted ∧
    runAuthResumed.pagesAttempted = [] := by
  decide

/-- C2 counterexample: `put` is not atomic.  Starting from an empty
store, the put of document content `AB` for entity 5 has an interrupted
state in which the unit file exists with the half-written content `A`,
which is neither the old state (absent) nor the complete new document. -/
theorem put_not_atomic_cex : ¬ Fs.putNeverHalfWritten [] 5 "AB" := by
  decide

/-- C2 amended: `saveOrder` performs a single direct `writeFile` to the
final unit path with no rename step; after a completed put the full new
document is visible to `exists`/`list`, but an interrupted put can leave
a half-written unit (a proper prefix of the document) visible at the
unit path. -/
theorem put_direct_write (fs : Fs.FS) (id : Nat) (content : String) (k : Nat)
    (hnone : Fs.fsRead fs (Fs.orderFileName id) = none)
    (_hk : 0 < k) (hklt : k < content.data.length) :
    (∀ op ∈ Fs.saveOrderOps id content, Fs.isRenameOp op = false) ∧
    Fs.fsRead (Fs.runOps fs (Fs.saveOrderOps id content)) (Fs.orderFileName id) =
      some content ∧
    ∃ s ∈ Fs.opsIntermediates fs (Fs.saveOrderOps id content),
      Fs.fsRead s (Fs.orderFileName id) = some (String.mk (content.data.take k)) ∧
      Fs.fsRead s (Fs.orderFileName id) ≠ Fs.fsRead fs (Fs.orderFileName id) ∧
      Fs.fsRead s (Fs.orderFileName id) ≠ some content := by
  refine ⟨?_, ?_, ?_⟩
  · intro op hop
    rcases List.mem_singleton.mp hop with rfl
    rfl
  · simp only [Fs.saveOrderOps, Fs.runOps, List.foldl_cons, List.foldl_nil, Fs.runOp]
    exact fsWrite_read_self fs _ content
  · refine ⟨Fs.fsWrite fs (Fs.orderFileName id) (String.mk (content.data.take k)), ?_, ?_, ?_, ?_⟩
    · simp only [Fs.saveOrderOps, Fs.opsIntermediates, Fs.opIntermediates]
      apply List.mem_cons_of_mem
      apply List.mem_append_left
      apply List.mem_map.mpr
      exact ⟨k, List.mem_range.mpr (by omega), rfl⟩
    · exact fsWrite_read_self fs _ _
    · rw [fsWrite_read_self fs _ _, hnone]
      exact Option.some_ne_none _
    · rw [fsWrite_read_self fs _ _]
      intro hEq
      have hdata : (String.mk (content.data.take k)).data = content.data :=
        congrArg String.data (Option.some.inj hEq)
      have hlen : (content.data.take k).length = content.data.length :=
        congrArg List.length hdata
      rw [List.length_take] at hlen
      omega

/-- C2 amended, witness at a concrete input. -/
theorem put_direct_write_witness :
    Fs.fsRead (Fs.runOps [] (Fs.saveOrderOps 7 "AB")) (Fs.orderFileName 7) =
      some "AB" ∧
    ∃ s ∈ Fs.opsIntermediates [] (Fs.saveOrderOps 7 "AB"),
      Fs.fsRead s (Fs.orderFileName 7) = some (String.mk ("AB".data.take 1)) ∧
      Fs.fsRead s (Fs.orderFileName 7) ≠ Fs.fsRead [] (Fs.orderFileName 7) ∧
      Fs.fsRead s (Fs.orderFileName 7) ≠ some "AB" :=
  ⟨(put_direct_write [] 7 "AB" 1 (by decide) (by decide) (by decide)).2.1,
   (put_direct_write [] 7 "AB" 1 (by decide) (by decide) (by decide)).2.2⟩

/-- C3 counterexample: a thrown transient error (HTTP 500) on a
dependent sub-resource fetch is not surfaced to the caller — both
`getOrderTransactions` and `getOrderShipments` swallow it and return the
fallback `{ items: [] }`. -/
theorem subresource_error_swallowed_cex :
    Api.getOrderTransactions
        (Except.error ⟨some 500⟩ : Except Api.ApiError (Api.ItemsResponse Nat)) =
      Except.ok { items := [], total_count := none } ∧
    Api.getOrderTransactions
        (Except.error ⟨some 500⟩ : Except Api.ApiError (Api.ItemsResponse Nat)) ≠
      Except.error ⟨some 500⟩ ∧
    Api.getOrderShipments
        (Except.error ⟨some 500⟩ : Except Api.ApiError (Api.ItemsResponse Nat)) ≠
      Except.error ⟨some 500⟩ :=
  ⟨rfl, fun h => Except.noConfusion h, fun h => Except.noConfusion h⟩

/-- C3 amended: each `MagentoAPI` method wraps a single underlying HTTP
attempt (no retries anywhere in the component).  `getOrders` surfaces a
thrown error to the caller unchanged; the dependent sub-resource
fetchers `getOrderTransactions` and `getOrderShipments` instead catch
any thrown error and return the fallback `{ items: [] }`. -/
theorem fetcher_error_propagation (α : Type) (e : Api.ApiError)
    (r : Api.ItemsResponse α) :
    Api.getOrders (Except.error e : Except Api.ApiError (Api.ItemsResponse α)) =
      Except.error e ∧
    Api.getOrders (Except.ok r : Except Api.ApiError (Api.ItemsResponse α)) =
      Except.ok r ∧
    Api.getOrderTransactions
        (Except.error e : Except Api.ApiError (Api.ItemsResponse α)) =
      Except.ok { items := [], total_count := none } ∧
    Api.getOrderShipments
        (Except.error e : Except Api.ApiError (Api.ItemsResponse α)) =
      Except.ok { items := [], total_count := none } :=
  ⟨rfl, rfl, rfl, rfl⟩

/-- C4 counterexample: when a later page reports a different
`total_count` than page 1 did, the loop keeps fetching although the
first-page rule says stop.  With page size 2 and first-page total 3, the
rule holds at page 2 (`2 * 2 ≥ 3`), yet pages 3 and 4 are fetched
because the check reads the current page response. -/
theorem download_termination_cex :
    firstPageTotal envShiftingTotal = some 3 ∧
    runShiftingTotal.pagesAttempted = [1, 2, 3, 4] ∧
    ¬ stopsOnFirstPageTotal 2 3 runShiftingTotal := by
  decide

/-- C4 amended: the page loop terminates exactly when a page returns
zero items or when `page * pageSize ≥ total_count` as reported by the
most recently fetched page response (re-read on every page, not frozen
at page 1); the spec scenario (page size 2, static total 3) still
yields exactly 3 units over pages 1 and 2 with
`downloadedOrders = 3, completed = true` persisted. -/
theorem download_termination (ps : Nat) (api : Dl.ApiEnv)
    (items : List Dl.Order) (tc : Option Nat) (rest : List Dl.PageFetch)
    (page : Nat) (st : Dl.DlState) (hne : items ≠ []) :
    (tc.getD 0 ≤ page * ps →
      (Dl.downloadLoop ps api (Dl.PageFetch.ok items tc :: rest) page st).pagesAttempted =
        [page]) ∧
    (page * ps < tc.getD 0 →
      (Dl.downloadLoop ps api (Dl.PageFetch.ok items tc :: rest) page st).pagesAttempted =
        page :: (Dl.downloadLoop ps api rest (page + 1)
          (Dl.applyPage api page items tc st).state).pagesAttempted) ∧
    (Dl.downloadLoop ps api (Dl.PageFetch.ok [] tc :: rest) page st).pagesAttempted =
      [page] ∧
    (runScenario32.state.status.downloadedOrders = 3 ∧
     runScenario32.state.status.completed = true ∧
     runScenario32.pagesAttempted = [1, 2] ∧
     runScenario32.state.store.length = 3 ∧
     runScenario32.state.persisted = some runScenario32.state.status) := by
  have hne' : items.isEmpty = false := by
    cases items with
    | nil => cases hne rfl
    | cons a t => rfl
  refine ⟨?_, ?_, ?_, by decide⟩
  · intro hstop
    simp only [Dl.downloadLoop, hne', Bool.false_eq_true, if_false,
      Nat.add_sub_cancel]
    rw [if_pos hstop]
  · intro hmore
    simp only [Dl.downloadLoop, hne', Bool.false_eq_true, if_false,
      Nat.add_sub_cancel]
    rw [if_neg (by omega)]
  · simp [Dl.downloadLoop]

/-- C4 amended, witness at a concrete input. -/
theorem download_termination_witness :
    (Dl.downloadLoop 2 apiNone [Dl.PageFetch.ok [mkOrder 31] (some 3)] 2
      { store := [], status := Dl.initialDownloadStatus, persisted := none }).pagesAttempted =
      [2] ∧
    runScenario32.state.status.downloadedOrders = 3 :=
  ⟨(download_termination 2 apiNone [mkOrder 31] (some 3) [] 2
      { store := [], status := Dl.initialDownloadStatus, persisted := none }
      (by decide)).1 (by decide),
   (download_termination 2 apiNone [mkOrder 31] (some 3) [] 2
      { store := [], status := Dl.initialDownloadStatus, persisted := none }
      (by decide)).2.2.2.1⟩

/-- C5: an order whose unit already exists is skipped without any
network call and without touching the store — and across a whole page,
an identifier already present sees no transaction or shipment call and
its stored document is left unchanged. -/
theorem exists_skip_noop (api : Dl.ApiEnv) (store : Dl.Store) (o : Dl.Order)
    (items : List Dl.Order) (id : Nat)
    (ho : Dl.storeHas store o.entity_id = true)
    (hid : Dl.storeHas store id = true) :
    Dl.processOrderItem api store o =
      { store := store, calls := [], downloaded := false } ∧
    (Dl.processPageItems api store items).store.lookup id = store.lookup id ∧
    (∀ c ∈ (Dl.processPageItems api store items).calls,
      Dl.callOrderId c ≠ some id) := by
  have hid' :
      ((({ store := store, downloadedCount := 0, calls := [] } :
        Dl.PageItemsOutcome)).store.lookup id).isSome = true := hid
  have hnil :
      ∀ c ∈ (({ store := store, downloadedCount := 0, calls := [] } :
        Dl.PageItemsOutcome)).calls, Dl.callOrderId c ≠ some id := by
    intro c hc
    cases hc
  refine ⟨processOrderItem_skip api store o ho, ?_, ?_⟩
  · exact (foldl_pageItemStep_preserves api id items _ hid' hnil).1
  · exact (foldl_pageItemStep_preserves api id items _ hid' hnil).2

/-- C5 witness at a concrete input. -/
theorem exists_skip_noop_witness :
    Dl.processOrderItem apiNone [(5, ⟨mkOrder 5, [], none⟩)] (mkOrder 5) =
      { store := [(5, ⟨mkOrder 5, [], none⟩)], calls := [], downloaded := false } ∧
    (Dl.processPageItems apiNone [(5, ⟨mkOrder 5, [], none⟩)]
        [mkOrder 5, mkOrder 6]).store.lookup 5 =
      ([(5, ⟨mkOrder 5, [], none⟩)] : Dl.Store).lookup 5 :=
  ⟨(exists_skip_noop apiNone [(5, ⟨mkOrder 5, [], none⟩)] (mkOrder 5)
      [mkOrder 5, mkOrder 6] 5 (by decide) (by decide)).1,
   (exists_skip_noop apiNone [(5, ⟨mkOrder 5, [], none⟩)] (mkOrder 5)
      [mkOrder 5, mkOrder 6] 5 (by decide) (by decide)).2.1⟩

/-- C6: the enumeration is a pure function of the directory contents
(two listings of the same files in any order sort identically), and the
resume skip is positional — with the cursor present in the duplicate-free
sorted enumeration, the files processed are exactly those whose index is
strictly greater than the cursor position. -/
theorem resume_skip_positional (l₁ l₂ dirFiles : List String) (lf : String)
    (hperm : l₁.Perm l₂) (hnd : dirFiles.Nodup)
    (hmem : lf ∈ getCachedOrderFiles dirFiles) :
    getCachedOrderFiles l₁ = getCachedOrderFiles l₂ ∧
    Pr.remainingFiles true (some lf) (getCachedOrderFiles dirFiles) =
      (getCachedOrderFiles dirFiles).filter
        (fun x => decide ((getCachedOrderFiles dirFiles).indexOf lf <
          (getCachedOrderFiles dirFiles).indexOf x)) := by
  refine ⟨getCachedOrderFiles_perm_invariant hperm, ?_⟩
  have hnl : (getCachedOrderFiles dirFiles).Nodup := getCachedOrderFiles_nodup hnd
  have hcont : (getCachedOrderFiles dirFiles).contains lf = true :=
    List.elem_iff.mpr hmem
  simp only [Pr.remainingFiles, hcont, if_true]
  exact drop_indexOf_succ hnl hmem

/-- C6 witness at a concrete input. -/
theorem resume_skip_positional_witness :
    getCachedOrderFiles ["order-2.json", "order-1.json"] =
      getCachedOrderFiles ["order-1.json", "order-2.json"] ∧
    Pr.remainingFiles true (some "order-1.json")
        (getCachedOrderFiles ["order-2.json", "order-1.json", "process-status.json"]) =
      ["order-2.json"] := by
  have h := resume_skip_positional ["order-2.json", "order-1.json"]
    ["order-1.json", "order-2.json"]
    ["order-2.json", "order-1.json", "process-status.json"] "order-1.json"
    (by decide) (by decide) (by decide)
  exact ⟨h.1, by rw [h.2]; decide⟩

/-- C7: in the per-file loop, a unit file is deleted only after the
write of its formatted rows succeeded (every delete event is preceded in
the trace by a successful write event of the same file), and a file
whose load or write fails is never deleted. -/
theorem delete_only_after_write (envp : String → Pr.FileOutcome)
    (keep : Bool) (files : List String) (st : Pr.ProcessStatus) (f : String) :
    (∀ pre suf,
      (Pr.processFilesLoop envp keep files st).2 =
        pre ++ Pr.PEvent.deleteEv f :: suf →
      Pr.PEvent.writeEv f true ∈ pre) ∧
    ((envp f = Pr.FileOutcome.loadFail ∨ envp f = Pr.FileOutcome.writeFail) →
      Pr.PEvent.deleteEv f ∉ (Pr.processFilesLoop envp keep files st).2) := by
  constructor
  · intro pre suf heq
    rcases deletesAfterWrite_spec f _ false
      (deletesAfterWrite_loop envp keep f files st false) pre suf heq with h | h
    · exact h
    · exact Bool.noConfusion h
  · intro hf
    exact deleteEv_not_mem_of_fail envp keep f hf files st

/-- C7 witness at a concrete input. -/
theorem delete_only_after_write_witness :
    Pr.PEvent.writeEv "order-1.json" true ∈
      [Pr.PEvent.loadEv "order-1.json" true, Pr.PEvent.writeEv "order-1.json" true] ∧
    Pr.PEvent.deleteEv "order-2.json" ∉
      (Pr.processFilesLoop
        (fun s => if s = "order-1.json" then Pr.FileOutcome.ok 2 else Pr.FileOutcome.loadFail)
        false ["order-1.json", "order-2.json"] Pr.initialProcessStatus).2 :=
  ⟨(delete_only_after_write
      (fun s => if s = "order-1.json" then Pr.FileOutcome.ok 2 else Pr.FileOutcome.loadFail)
      false ["order-1.json", "order-2.json"] Pr.initialProcessStatus
      "order-1.json").1
      [Pr.PEvent.loadEv "order-1.json" true, Pr.PEvent.writeEv "order-1.json" true]
      [Pr.PEvent.loadEv "order-2.json" false] (by decide),
   (delete_only_after_write
      (fun s => if s = "order-1.json" then Pr.FileOutcome.ok 2 else Pr.FileOutcome.loadFail)
      false ["order-1.json", "order-2.json"] Pr.initialProcessStatus
      "order-2.json").2 (Or.inl (by decide))⟩

/-- C8: formatting an order with a malformed `product_options` string
does not throw — one row per item is still produced, the affected row
carries the empty string in the `product_options` column, and its other
item columns are filled normally. -/
theorem malformed_product_options_row (order : Csv.Order) (i : Nat)
    (item : Csv.OrderItem) (raw : String)
    (hit : order.items[i]? = some item)
    (hmal : item.product_options =
      some (Csv.ProductOptionsField.malformedStr raw)) :
    (Csv.formatOrderData order).length = order.items.length ∧
    ((Csv.formatOrderData order).map (fun r => r.product_options))[i]? =
      some "" ∧
    ((Csv.formatOrderData order).map (fun r => r.item_sku))[i]? =
      some item.sku := by
  refine ⟨by simp [Csv.formatOrderData], ?_, ?_⟩
  · rw [Csv.formatOrderData, List.map_map, List.getElem?_map, hit]
    simp [Csv.itemRow, Csv.itemProductOptions, hmal]
  · rw [Csv.formatOrderData, List.map_map, List.getElem?_map, hit]
    simp [Csv.itemRow]

/-- C8 witness at a concrete input. -/
theorem malformed_product_options_row_witness :
    (Csv.formatOrderData csvOrderMalformed).length =
      csvOrderMalformed.items.length ∧
    ((Csv.formatOrderData csvOrderMalformed).map
      (fun r => r.product_options))[0]? = some "" :=
  ⟨(malformed_product_options_row csvOrderMalformed 0 csvItemMalformed
      "not-json" rfl rfl).1,
   (malformed_product_options_row csvOrderMalformed 0 csvItemMalformed
      "not-json" rfl rfl).2.1⟩

/-- C9: with the cache directory present, a rerun of the process stage
against an empty store returns immediately when resuming an
already-completed checkpoint, and otherwise reports the fatal no-files
condition with exit code 1. -/
theorem process_rerun_empty_store (resume : Bool) (status : Pr.ProcessStatus)
    (dirFiles : List String) (hempty : dirFiles.filter isOrderFile = []) :
    ((resume && status.completed) = true →
      Pr.processOrdersEntry resume status true dirFiles =
        Pr.EntryOutcome.alreadyCompleted) ∧
    ((resume && status.completed) = false →
      Pr.processOrdersEntry resume status true dirFiles =
        Pr.EntryOutcome.fatalNoFiles ∧
      Pr.entryExitCode (Pr.processOrdersEntry resume status true dirFiles) =
        some 1) := by
  have hfiles : getCachedOrderFiles dirFiles = [] := by
    unfold getCachedOrderFiles
    rw [hempty]
    rfl
  constructor
  · intro h
    simp [Pr.processOrdersEntry, h]
  · intro h
    constructor <;> simp [Pr.processOrdersEntry, Pr.entryExitCode, h, hfiles]

/-- C9 witness at a concrete input. -/
theorem process_rerun_empty_store_witness :
    Pr.processOrdersEntry true
        { totalFiles := 0, processedFiles := 0, processedOrders := 0,
          totalLines := 0, completed := true, errors := [], outputFile := none,
          lastProcessedFile := none }
        true ["download-status.json"] = Pr.EntryOutcome.alreadyCompleted ∧
    Pr.processOrdersEntry false Pr.initialProcessStatus true [] =
      Pr.EntryOutcome.fatalNoFiles :=
  ⟨(process_rerun_empty_store true
      { totalFiles := 0, processedFiles := 0, processedOrders := 0,
        totalLines := 0, completed := true, errors := [], outputFile := none,
        lastProcessedFile := none }
      ["download-status.json"] (by decide)).1 (by decide),
   ((process_rerun_empty_store false Pr.initialProcessStatus [] (by decide)).2
      (by decide)).1⟩

/-- C10: the store enumeration returns only unit files
(`order-*.json`); the two checkpoint files living in the same directory
never appear in it and consequently are never deleted as units by the
per-file loop. -/
theorem checkpoint_files_never_enumerated (dirFiles : List String)
    (envp : String → Pr.FileOutcome) (keep : Bool) (st : Pr.ProcessStatus) :
    (getCachedOrderFiles dirFiles).all isOrderFile = true ∧
    "process-status.json" ∉ getCachedOrderFiles dirFiles ∧
    "download-status.json" ∉ getCachedOrderFiles dirFiles ∧
    Pr.PEvent.deleteEv "process-status.json" ∉
      (Pr.processFilesLoop envp keep (getCachedOrderFiles dirFiles) st).2 ∧
    Pr.PEvent.deleteEv "download-status.json" ∉
      (Pr.processFilesLoop envp keep (getCachedOrderFiles dirFiles) st).2 := by
  have hall : ∀ f ∈ getCachedOrderFiles dirFiles, isOrderFile f = true := by
    intro f hf
    exact List.of_mem_filter (mem_getCachedOrderFiles.mp hf)
  have hp : "process-status.json" ∉ getCachedOrderFiles dirFiles := by
    intro h
    have hfalse : isOrderFile "process-status.json" = false := by decide
    rw [hall _ h] at hfalse
    exact Bool.noConfusion hfalse
  have hd : "download-status.json" ∉ getCachedOrderFiles dirFiles := by
    intro h
    have hfalse : isOrderFile "download-status.json" = false := by decide
    rw [hall _ h] at hfalse
    exact Bool.noConfusion hfalse
  refine ⟨List.all_eq_true.mpr hall, hp, hd, ?_, ?_⟩
  · intro h
    exact hp (deleteEv_mem_imp envp keep _ _ st h)
  · intro h
    exact hd (deleteEv_mem_imp envp keep _ _ st h)

end OrderExport
